import Mathlib

/-!
Verification of the МТС ("Meta-Theory of Links") checker core:
a shallow embedding of the AST (`src/aprover-app/src/core/ast.ts`),
the normalizer (`src/aprover-app/src/core/normalizer.ts`) and the
prover kernel (the `ProverState`/`unify`/`checkEquality`/`checkInequality`/
`verify` module) in Lean 4, together with proofs of the specified
properties of normalization, unification and the equality decision
procedure.

Modelling conventions:
* AST nodes drop the optional `loc` source-location field: no function
  verified here reads it (`toCanonicalString`, `normalize`, `unify`,
  `expandDefinitions`, `checkEquality` are all location-independent).
* The `Statement`/`File` wrapper nodes are omitted; every property below is
  about expression-level nodes, which is how the test-suite exercises the
  pipeline (`normalize(parseExpr(...))`).
* Thrown `NormalizationError`s become `Except NormError`; the two distinct
  throw sites keep distinct constructors.
* JavaScript `Map`/`Set` become association lists / lists of strings;
  only `has`/`get`/`set`/`add` are used by the embedded code.
* Mutation of `ProverState` (the `state.trace.push` calls) becomes explicit
  state passing: the mutating functions return the updated state.
* `normalize` is embedded at its default options (all four flags `true`),
  which is how every verified call site invokes it.
-/

namespace Aprover

/-- AST node (`ast.ts`), without the `loc` field.  `power`'s exponent is a
natural number: the parser builds it with `parseInt` from a digit run. -/
inductive Node where
  | link (left right : Node)
  | notLink (left right : Node)
  | defn (name form : Node)
  | eq (left right : Node)
  | neq (left right : Node)
  | male (operand : Node)
  | female (operand : Node)
  | not (operand : Node)
  | power (base : Node) (exponent : Nat)
  | set (elements : List Node)
  | infinity
  | num (value : Fin 2)
  | ident (name : String)
  | charLit (char : Char)
  | bracket (isLeft : Bool)

/-- The two `throw new NormalizationError(...)` sites of `normalizer.ts`. -/
inductive NormError where
  | powerExponent
  | unguardedRecursion (name : String)
  deriving DecidableEq, Repr

/-- `canonicalize` (`normalizer.ts`): `!!x → x`, `!(♂x) → x♀`, `!(x♀) → ♂x`;
every other node is returned unchanged. -/
def canonicalize : Node → Node
  | .not (.not x) => x
  | .not (.male x) => .female x
  | .not (.female x) => .male x
  | n => n

/-- Lexicographic comparison of character lists, the order JavaScript's
default `Array.prototype.sort` comparator induces on the (BMP-only)
canonical strings. -/
def lexLe : List Char → List Char → Bool
  | [], _ => true
  | _ :: _, [] => false
  | a :: as', b :: bs => if a < b then true else if b < a then false else lexLe as' bs

/-- String comparison used to sort `Set` elements. -/
def strLe (a b : String) : Bool :=
  lexLe a.data b.data

/-- Insert a string into a sorted list of strings. -/
def insertSorted (s : String) : List String → List String
  | [] => [s]
  | t :: ts => if strLe s t then s :: t :: ts else t :: insertSorted s ts

/-- Sort a list of strings ascending (the `.sort()` of the `Set` case). -/
def sortStrings : List String → List String
  | [] => []
  | s :: ss => insertSorted s (sortStrings ss)

mutual

/-- `toCanonicalString` (`normalizer.ts`): deterministic signature used for
structural equality.  `Set` elements are printed sorted by their own
canonical string (`[...].map(toCanonicalString).sort()`). -/
def toCanonicalString : Node → String
  | .link l r => "(" ++ toCanonicalString l ++ "->" ++ toCanonicalString r ++ ")"
  | .notLink l r => "(" ++ toCanonicalString l ++ "!->" ++ toCanonicalString r ++ ")"
  | .defn n f => "(" ++ toCanonicalString n ++ ":" ++ toCanonicalString f ++ ")"
  | .eq l r => "(" ++ toCanonicalString l ++ "=" ++ toCanonicalString r ++ ")"
  | .neq l r => "(" ++ toCanonicalString l ++ "!=" ++ toCanonicalString r ++ ")"
  | .male x => "♂" ++ toCanonicalString x
  | .female x => toCanonicalString x ++ "♀"
  | .not x => "!" ++ toCanonicalString x
  | .power b e => toCanonicalString b ++ "^" ++ toString e
  | .set es =>
      "\x7b" ++ String.intercalate "," (sortStrings (canonList es)) ++ "\x7d"
  | .infinity => "∞"
  | .num v => toString v.val
  | .ident n => n
  | .charLit c => "\x27" ++ String.singleton c ++ "\x27"
  | .bracket isLeft => if isLeft then "[" else "]"

/-- Canonical strings of a list of nodes, in order (the `map` step of the
`Set` case before sorting). -/
def canonList : List Node → List String
  | [] => []
  | x :: xs => toCanonicalString x :: canonList xs

end

/-- `astEqual` (`normalizer.ts`): equality of canonical strings. -/
def astEqual (a b : Node) : Bool :=
  toCanonicalString a == toCanonicalString b

/-- `expandPower`'s loop (`normalizer.ts`): `result = Link(base, base)`, then
`exponent - 2` further iterations of `result = Link(result, base)`;
`powChain base k` is the value after `k` iterations. -/
def powChain (base : Node) : Nat → Node
  | 0 => .link base base
  | k + 1 => .link (powChain base k) base

/-- `expandPower` (`normalizer.ts`): `a^n` as a left-associative link chain;
`n < 1` throws. -/
def expandPower (base : Node) (exponent : Nat) : Except NormError Node :=
  if exponent < 1 then .error .powerExponent
  else if exponent = 1 then .ok base
  else .ok (powChain base (exponent - 2))

mutual

/-- `containsIdent` (`normalizer.ts`): does `name` occur in the node with the
given guard state?  Crossing a `Link` makes the occurrence guarded; every
other constructor passes the parent's guard state through unchanged. -/
def containsIdent (node : Node) (name : String) (guarded : Bool) : Bool :=
  match node with
  | .ident n => n == name && !guarded
  | .link l r => containsIdent l name true || containsIdent r name true
  | .notLink l r => containsIdent l name guarded || containsIdent r name guarded
  | .male x => containsIdent x name guarded
  | .female x => containsIdent x name guarded
  | .not x => containsIdent x name guarded
  | .power b _ => containsIdent b name guarded
  | .set es => containsIdentList es name guarded
  | .defn n f => containsIdent n name guarded || containsIdent f name guarded
  | .eq l r => containsIdent l name guarded || containsIdent r name guarded
  | .neq l r => containsIdent l name guarded || containsIdent r name guarded
  | _ => false

/-- The `elements.some(...)` step of `containsIdent`'s `Set` case. -/
def containsIdentList (es : List Node) (name : String) (guarded : Bool) : Bool :=
  match es with
  | [] => false
  | x :: xs => containsIdent x name guarded || containsIdentList xs name guarded

end

/-- `checkGuardedRecursion` (`normalizer.ts`): only definitions whose name is
a plain identifier are checked; throws when the name occurs unguarded in the
form. -/
def checkGuardedRecursion (name form : Node) : Except NormError Unit :=
  match name with
  | .ident n =>
      if containsIdent form n false then .error (.unguardedRecursion n) else .ok ()
  | _ => .ok ()

mutual

/-- `normalizeNode` (`normalizer.ts`) at the default options: children first
(post-order), then the node-local rule (desugar `NotLink`, expand `Power`,
check guarded recursion on `Definition`), then `canonicalize` on the result.
Leaf nodes reach `canonicalize` unchanged. -/
def normalize : Node → Except NormError Node
  | .link l r =>
      match normalize l with
      | .error e => .error e
      | .ok l' =>
        match normalize r with
        | .error e => .error e
        | .ok r' => .ok (canonicalize (.link l' r'))
  | .notLink l r =>
      match normalize l with
      | .error e => .error e
      | .ok l' =>
        match normalize r with
        | .error e => .error e
        | .ok r' => .ok (canonicalize (.not (.link l' r')))
  | .defn n f =>
      match normalize n with
      | .error e => .error e
      | .ok n' =>
        match normalize f with
        | .error e => .error e
        | .ok f' =>
          match checkGuardedRecursion n' f' with
          | .error e => .error e
          | .ok _ => .ok (canonicalize (.defn n' f'))
  | .eq l r =>
      match normalize l with
      | .error e => .error e
      | .ok l' =>
        match normalize r with
        | .error e => .error e
        | .ok r' => .ok (canonicalize (.eq l' r'))
  | .neq l r =>
      match normalize l with
      | .error e => .error e
      | .ok l' =>
        match normalize r with
        | .error e => .error e
        | .ok r' => .ok (canonicalize (.neq l' r'))
  | .male x =>
      match normalize x with
      | .error e => .error e
      | .ok x' => .ok (canonicalize (.male x'))
  | .female x =>
      match normalize x with
      | .error e => .error e
      | .ok x' => .ok (canonicalize (.female x'))
  | .not x =>
      match normalize x with
      | .error e => .error e
      | .ok x' => .ok (canonicalize (.not x'))
  | .power b e =>
      match normalize b with
      | .error err => .error err
      | .ok b' =>
        match expandPower b' e with
        | .error err => .error err
        | .ok v => .ok (canonicalize v)
  | .set es =>
      match normalizeList es with
      | .error e => .error e
      | .ok es' => .ok (canonicalize (.set es'))
  | .infinity => .ok (canonicalize .infinity)
  | .num v => .ok (canonicalize (.num v))
  | .ident n => .ok (canonicalize (.ident n))
  | .charLit c => .ok (canonicalize (.charLit c))
  | .bracket b => .ok (canonicalize (.bracket b))

/-- The `elements.map(...)` step of `normalizeNode`'s `Set` case, with the
first error propagated. -/
def normalizeList : List Node → Except NormError (List Node)
  | [] => .ok []
  | x :: xs =>
      match normalize x with
      | .error e => .error e
      | .ok x' =>
        match normalizeList xs with
        | .error e => .error e
        | .ok xs' => .ok (x' :: xs')

end

/-! ## Prover kernel (`part_010`) -/

/-- `Substitution` (`Map<string, ASTNode>`), as an association list in
insertion order.  The kernel only uses `has`/`get`/`set`. -/
abbrev Subst := List (String × Node)

/-- `Map.get`: the binding of `k`, if any (keys are unique). -/
def substGet (s : Subst) (k : String) : Option Node :=
  match s with
  | [] => none
  | (k', v) :: rest => if k' == k then some v else substGet rest k

/-- `Map.has`. -/
def substHas (s : Subst) (k : String) : Bool :=
  (substGet s k).isSome

/-- `Map.set`: overwrite an existing key in place, else append. -/
def substSet (s : Subst) (k : String) (v : Node) : Subst :=
  match s with
  | [] => [(k, v)]
  | (k', v') :: rest => if k' == k then (k, v) :: rest else (k', v') :: substSet rest k v

/-- `isVariable` (`part_010`): the regex `/^[a-z]$/` — exactly one lowercase
Latin letter. -/
def isVariable (name : String) : Bool :=
  match name.data with
  | [c] => 'a' ≤ c && c ≤ 'z'
  | _ => false

mutual

/-- `occursIn` (`part_010`): does the variable name occur anywhere in the
term?  (Power, Infinity, Num, CharLit and Bracket nodes have no case in the
source and fall through to `false`.) -/
def occursIn (varName : String) (term : Node) : Bool :=
  match term with
  | .ident n => n == varName
  | .link l r => occursIn varName l || occursIn varName r
  | .male x => occursIn varName x
  | .female x => occursIn varName x
  | .not x => occursIn varName x
  | .set es => occursInList varName es
  | .eq l r => occursIn varName l || occursIn varName r
  | .neq l r => occursIn varName l || occursIn varName r
  | .defn n f => occursIn varName n || occursIn varName f
  | _ => false

/-- The `elements.some(...)` step of `occursIn`'s `Set` case. -/
def occursInList (varName : String) (es : List Node) : Bool :=
  match es with
  | [] => false
  | x :: xs => occursIn varName x || occursInList varName xs

end

mutual

/-- The node traversal of `applySubstitution` (`part_010`) for one chain
level: `jump name binding` is invoked on a bound identifier (the source
there recurses on the binding with the full substitution, a recursion that
diverges on a cyclic chain and is therefore fuelled below); every other
case rebuilds the structure, and the `subst.size === 0` shortcut returns
the node unchanged. -/
def applyStep (jump : String → Node → Node) (subst : Subst) (node : Node) : Node :=
  if subst.isEmpty then node
  else
    match node with
    | .ident n =>
        match substGet subst n with
        | some t => jump n t
        | none => .ident n
    | .link l r => .link (applyStep jump subst l) (applyStep jump subst r)
    | .male x => .male (applyStep jump subst x)
    | .female x => .female (applyStep jump subst x)
    | .not x => .not (applyStep jump subst x)
    | .set es => .set (applyStepList jump subst es)
    | .eq l r => .eq (applyStep jump subst l) (applyStep jump subst r)
    | .neq l r => .neq (applyStep jump subst l) (applyStep jump subst r)
    | .defn n f => .defn (applyStep jump subst n) (applyStep jump subst f)
    | other => other

/-- The `elements.map(...)` step of `applySubstitution`'s `Set` case. -/
def applyStepList (jump : String → Node → Node) (subst : Subst) (es : List Node) :
    List Node :=
  match es with
  | [] => []
  | x :: xs => applyStep jump subst x :: applyStepList jump subst xs

end

/-- `applySubstitution` (`part_010`), fuelled on the binding-chain jumps
only: each jump from a bound identifier to its binding consumes one unit;
an exhausted chain (only reachable on a cyclic substitution, which `unify`
never produces and on which the source diverges) stops at the identifier. -/
def applySubstitutionFuel : Nat → Subst → Node → Node
  | 0, subst => applyStep (fun n _ => .ident n) subst
  | f + 1, subst => applyStep (fun _ t => applySubstitutionFuel f subst t) subst

/-- `applySubstitution` at the fuel that covers every acyclic binding chain:
a chain consumes one jump per distinct key, so `subst.length` suffices. -/
def applySubstitution (node : Node) (subst : Subst) : Node :=
  applySubstitutionFuel subst.length subst node

/-- The variable test `isIdentExpr(n) && isVariable(n.name)` of `unify`,
returning the variable's name. -/
def getVar : Node → Option String
  | .ident n => if isVariable n then some n else none
  | _ => none

/-- `unifyVar` (`part_010`), parameterized over the recursive `unify` call:
an already-bound variable is unified recursively against its binding;
otherwise the occurs-check rejects a binding of `x` to a term containing
`x`, and an admissible binding extends the substitution
(`new Map(subst).set(...)`). -/
def unifyVar (unifyF : Node → Node → Subst → Option Subst) (varName : String)
    (term : Node) (subst : Subst) : Option Subst :=
  match substGet subst varName with
  | some bound => unifyF bound term subst
  | none =>
      if occursIn varName term then none
      else some (substSet subst varName term)

/-- The element loop of `unify`'s `Set` case (`s = s1` threading),
parameterized over the recursive `unify` call. -/
def unifyList (unifyF : Node → Node → Subst → Option Subst) :
    List Node → List Node → Subst → Option Subst
  | [], [], subst => some subst
  | a :: as', b :: bs, subst =>
      match unifyF a b subst with
      | none => none
      | some s1 => unifyList unifyF as' bs s1
  | _, _, _ => none

/-- `unify` (`part_010`), fuelled: applies the substitution to both sides,
returns the substitution unchanged when the canonical strings already match,
treats a single-lowercase-letter identifier as a unification variable, and
otherwise recurses structurally; any mismatch is `none`.  Every recursive
`unify` call of the source consumes one unit of fuel (the source recursion
is not structurally decreasing — a bound variable restarts on its binding —
so fuel makes the embedding total); fuel `0`, never reached from
`Aprover.unify`'s bound in the verified calls, is `none`. -/
def unifyFuel : Nat → Node → Node → Subst → Option Subst
  | 0, _, _, _ => none
  | fuel + 1, a, b, subst =>
    let a' := applySubstitution a subst
    let b' := applySubstitution b subst
    if toCanonicalString a' == toCanonicalString b' then some subst
    else
      match getVar a' with
      | some n => unifyVar (unifyFuel fuel) n b' subst
      | none =>
        match getVar b' with
        | some n => unifyVar (unifyFuel fuel) n a' subst
        | none =>
          match a', b' with
          | .link a1 a2, .link b1 b2 =>
              match unifyFuel fuel a1 b1 subst with
              | none => none
              | some s1 => unifyFuel fuel a2 b2 s1
          | .male x, .male y => unifyFuel fuel x y subst
          | .female x, .female y => unifyFuel fuel x y subst
          | .not x, .not y => unifyFuel fuel x y subst
          | .set es1, .set es2 =>
              if es1.length == es2.length then unifyList (unifyFuel fuel) es1 es2 subst
              else none
          | .eq a1 a2, .eq b1 b2 =>
              match unifyFuel fuel a1 b1 subst with
              | none => none
              | some s1 => unifyFuel fuel a2 b2 s1
          | .neq a1 a2, .neq b1 b2 =>
              match unifyFuel fuel a1 b1 subst with
              | none => none
              | some s1 => unifyFuel fuel a2 b2 s1
          | .defn a1 a2, .defn b1 b2 =>
              match unifyFuel fuel a1 b1 subst with
              | none => none
              | some s1 => unifyFuel fuel a2 b2 s1
          | .infinity, .infinity => some subst
          | .num v1, .num v2 => if v1 == v2 then some subst else none
          | .bracket s1, .bracket s2 => if s1 == s2 then some subst else none
          | _, _ => none

mutual

/-- Node count of a term, used only to pick `unify`'s fuel bound. -/
def nodeSize : Node → Nat
  | .link l r => nodeSize l + nodeSize r + 1
  | .notLink l r => nodeSize l + nodeSize r + 1
  | .defn n f => nodeSize n + nodeSize f + 1
  | .eq l r => nodeSize l + nodeSize r + 1
  | .neq l r => nodeSize l + nodeSize r + 1
  | .male x => nodeSize x + 1
  | .female x => nodeSize x + 1
  | .not x => nodeSize x + 1
  | .power b _ => nodeSize b + 1
  | .set es => nodeSizeList es + 1
  | _ => 1

/-- Node count of a list of terms. -/
def nodeSizeList : List Node → Nat
  | [] => 0
  | x :: xs => nodeSize x + nodeSizeList xs

end

/-- `unify` with its default empty substitution argument, at a fuel bound
that dominates the source's recursion depth on every input it terminates on
within that depth; the verified calls below all resolve within the bound. -/
def unify (a b : Node) (subst : Subst := []) : Option Subst :=
  unifyFuel (nodeSize a + nodeSize b + subst.length + 1) a b subst

/-- `AxiomId` (`part_010`). -/
inductive AxiomId where
  | A0 | A1 | A2 | A3 | A4 | A5 | A6 | A7 | A8 | A9 | A10 | A11
  deriving DecidableEq, Repr

/-- `AxiomInfo` (`part_010`). -/
structure AxiomInfo where
  id : AxiomId
  name : String
  formula : String
  description : String
  deriving DecidableEq, Repr

/-- The static catalog `AXIOMS` (`part_010`). -/
def AXIOMS : AxiomId → AxiomInfo
  | .A0 => ⟨.A0, "Определение", "(s : F) → (s = F)", "Знак как запрос по форме"⟩
  | .A1 => ⟨.A1, "Тождественность", "x = x", "Рефлексивность, симметрия, транзитивность"⟩
  | .A2 => ⟨.A2, "Конгруэнция", "\x7b(a = c), (b = d)\x7d → ((a → b) = (c → d))",
      "Структурная прозрачность"⟩
  | .A3 => ⟨.A3, "Связь", "be : (b → e)", "Базовый конструктор"⟩
  | .A4 => ⟨.A4, "Смысл (акорень)", "∞ : (∞ → ∞)", "Полное самозамыкание"⟩
  | .A5 => ⟨.A5, "Самозамыкание начала", "♂x : (♂x → x)", "Начало замкнуто на связь"⟩
  | .A6 => ⟨.A6, "Самозамыкание конца", "x♀ : (x → x♀)", "Конец замкнут на связь"⟩
  | .A7 => ⟨.A7, "Инверсия",
      "!(a → b) = (b → a), !(♂x) = x♀, !(x♀) = ♂x, !∞ = ∞, !!x = x", "Дуальность"⟩
  | .A8 => ⟨.A8, "Единица смысла", "1 : (♂∞ → ∞♀)", "Направленная связь"⟩
  | .A9 => ⟨.A9, "Нуль смысла", "0 : !1", "Инверсия единицы"⟩
  | .A10 => ⟨.A10, "Абиты", "\x27[\x27 : ♂∞, \x27]\x27 : ∞♀, \x271\x27 : 1, \x270\x27 : 0",
      "Четверичная система"⟩
  | .A11 => ⟨.A11, "Левоассоциативность", "(a → b → c) = ((a → b) → c)", "Порядок группировки"⟩

/-- `ProofStep` (`part_010`); the source's optional `axiom` field is named
`axId` here. -/
structure ProofStep where
  index : Nat
  action : String
  before : Option String
  after : Option String
  axId : Option AxiomInfo
  details : Option String
  deriving DecidableEq, Repr

/-- `VerificationHint.type` (`part_010`): the four hint kinds; the source's
`axiom` kind is named `axiomKind` here. -/
inductive HintType where
  | structural | definitionKind | axiomKind | suggestion
  deriving DecidableEq, Repr

/-- `VerificationHint` (`part_010`); the source's optional `relatedAxiom`
field is named `relatedAxId` here. -/
structure VerificationHint where
  type : HintType
  message : String
  relatedAxId : Option AxiomId
  deriving DecidableEq, Repr

/-- `ProofResult` (`part_010`).  The source's optional fields are modelled
with the value the consumers observe when absent: empty lists and `none`. -/
structure ProofResult where
  success : Bool
  message : String
  steps : List String
  proofSteps : List ProofStep
  appliedAxioms : List AxiomInfo
  hints : List VerificationHint
  substitution : Option Subst

/-- `ProverState` (`part_010`): `Map`s and the `Set` of facts become lists
(insertion order); `trace` is the ordered log. -/
structure ProverState where
  axioms : List Node
  definitions : List (String × Node)
  facts : List String
  trace : List String

/-- `Set.add` on the facts set: insert if absent. -/
def factsAdd (facts : List String) (s : String) : List String :=
  if facts.contains s then facts else facts ++ [s]

/-- `createProverState` (`part_010`).  The seeded forms are
`parseAndNormalize` of hard-coded strings; each parses to the AST shown and
is a fixed point of `normalize`:
`'∞ -> ∞'` ↦ `Link(∞,∞)`, `'♂∞ -> ∞♀'` ↦ `Link(♂∞,∞♀)`, `'!1'` ↦ `Not(1)`,
`'♂∞'` ↦ `♂∞`, `'∞♀'` ↦ `∞♀`; `addAxiomEq('!∞','∞')` adds the canonical
string of `Equality(!∞,∞)`. -/
def createProverState : ProverState :=
  { axioms := []
    definitions :=
      [("∞", .link .infinity .infinity),
       ("1", .link (.male .infinity) (.female .infinity)),
       ("0", .not (.num 1)),
       ("[", .male .infinity),
       ("]", .female .infinity)]
    facts := ["(x=x)", "(!∞=∞)"]
    trace := [] }

mutual

/-- The node traversal of `expandDefinitions` (`part_010`) for one chain
level: `jump name form` is invoked on an identifier with a registered
definition (the source there recurses on the definition form, a recursion
that diverges on a recursive definition and is therefore fuelled below).
`Definition`, `NotLink`, `Power` and the constant leaves have no case in
the source and are returned unchanged — in particular `Infinity`, `Num`
and `Bracket` nodes are never expanded. -/
def expandStep (jump : String → Node → Node) (state : ProverState) (node : Node) : Node :=
  match node with
  | .ident n =>
      match substGet state.definitions n with
      | some t => jump n t
      | none => .ident n
  | .link l r => .link (expandStep jump state l) (expandStep jump state r)
  | .male x => .male (expandStep jump state x)
  | .female x => .female (expandStep jump state x)
  | .not x => .not (expandStep jump state x)
  | .set es => .set (expandStepList jump state es)
  | .eq l r => .eq (expandStep jump state l) (expandStep jump state r)
  | .neq l r => .neq (expandStep jump state l) (expandStep jump state r)
  | other => other

/-- The `elements.map(...)` step of `expandDefinitions`' `Set` case. -/
def expandStepList (jump : String → Node → Node) (state : ProverState) (es : List Node) :
    List Node :=
  match es with
  | [] => []
  | x :: xs => expandStep jump state x :: expandStepList jump state xs

end

/-- `expandDefinitions` (`part_010`), fuelled on definition jumps only; an
exhausted chain (a recursive definition, on which the source diverges)
stops at the identifier. -/
def expandDefinitionsFuel : Nat → ProverState → Node → Node
  | 0, state => expandStep (fun n _ => .ident n) state
  | f + 1, state => expandStep (fun _ t => expandDefinitionsFuel f state t) state

/-- `expandDefinitions` at the fuel covering every acyclic definition chain
(one jump per registered definition). -/
def expandDefinitions (node : Node) (state : ProverState) : Node :=
  expandDefinitionsFuel state.definitions.length state node

/-- `applyMaleAxiom` (`part_010`): `♂x ↦ Link(♂x, x)`. -/
def applyMaleAxiom : Node → Option Node
  | .male x => some (.link (.male x) x)
  | _ => none

/-- `applyFemaleAxiom` (`part_010`): `x♀ ↦ Link(x, x♀)`. -/
def applyFemaleAxiom : Node → Option Node
  | .female x => some (.link x (.female x))
  | _ => none

/-- The `node.type` tag strings, used by the structural hint. -/
def nodeType : Node → String
  | .link .. => "Link"
  | .notLink .. => "NotLink"
  | .defn .. => "Definition"
  | .eq .. => "Equality"
  | .neq .. => "Inequality"
  | .male .. => "Male"
  | .female .. => "Female"
  | .not .. => "Not"
  | .power .. => "Power"
  | .set .. => "Set"
  | .infinity => "Infinity"
  | .num .. => "Num"
  | .ident .. => "Identifier"
  | .charLit .. => "CharLit"
  | .bracket .. => "Bracket"

/-- Is the node a `Male` expression? -/
def isMale : Node → Bool
  | .male .. => true
  | _ => false

/-- Is the node a `Female` expression? -/
def isFemale : Node → Bool
  | .female .. => true
  | _ => false

/-- Is the node a `Link` expression? -/
def isLink : Node → Bool
  | .link .. => true
  | _ => false

/-- Is the node the `Infinity` constant? -/
def isInfinity : Node → Bool
  | .infinity => true
  | _ => false

/-- `generateEqualityHints` (`part_010`): the fixed, non-exclusive checks in
source order, with the generic fallback when nothing matched. -/
def generateEqualityHints (left right expLeft expRight : Node) :
    List VerificationHint :=
  let h1 : List VerificationHint :=
    if nodeType left != nodeType right then
      [⟨.structural, "Разные типы выражений: " ++ nodeType left ++ " ≠ " ++ nodeType right,
        none⟩]
    else []
  let h2 : List VerificationHint :=
    if (isMale expLeft && isFemale expRight) || (isFemale expLeft && isMale expRight) then
      [⟨.suggestion, "♂ и ♀ операторы дуальны, но не взаимозаменяемы", some .A7⟩]
    else []
  let h3 : List VerificationHint :=
    if isMale expLeft || isMale expRight then
      [⟨.axiomKind, "Попробуйте применить аксиому А5: ♂x = (♂x → x)", some .A5⟩]
    else []
  let h4 : List VerificationHint :=
    if isFemale expLeft || isFemale expRight then
      [⟨.axiomKind, "Попробуйте применить аксиому А6: x♀ = (x → x♀)", some .A6⟩]
    else []
  let h5 : List VerificationHint :=
    if isInfinity expLeft || isInfinity expRight then
      [⟨.axiomKind, "Попробуйте применить аксиому А4: ∞ = (∞ → ∞)", some .A4⟩]
    else []
  let h6 : List VerificationHint :=
    if isLink expLeft && isLink expRight then
      [⟨.suggestion, "Проверьте структуру связей: левая и правая части должны совпадать",
        none⟩]
    else []
  let hints := h1 ++ h2 ++ h3 ++ h4 ++ h5 ++ h6
  if hints.isEmpty then
    [⟨.suggestion, "Выражения имеют разную структуру и не могут быть унифицированы", none⟩]
  else hints

/-- `checkEquality` (`part_010`): the ordered decision procedure.  The
source's `state.trace.push` calls become the `state1`/`state2` updates, and
the early `return`s become the `Option` chain over the once-applied axiom
schemas; the fall-through end of the function is the failure result. -/
def checkEquality (left right : Node) (state : ProverState) :
    Except NormError (ProofResult × ProverState) :=
  match normalize left with
  | .error e => .error e
  | .ok normLeft =>
  match normalize right with
  | .error e => .error e
  | .ok normRight =>
  let leftStr := toCanonicalString normLeft
  let rightStr := toCanonicalString normRight
  let step1 : ProofStep :=
    ⟨1, "Нормализация выражений",
     some (toCanonicalString left ++ " = " ++ toCanonicalString right),
     some (leftStr ++ " = " ++ rightStr), none,
     some "Применены правила нормализации: !!x→x, !(♂x)→x♀, !(x♀)→♂x"⟩
  let state1 : ProverState :=
    { state with trace := state.trace ++ ["Checking: " ++ leftStr ++ " = " ++ rightStr] }
  if astEqual normLeft normRight then
    .ok ({ success := true
           message := "Структурное равенство (А1: тождественность)"
           steps := ["Direct structural comparison"]
           proofSteps := [step1,
             ⟨2, "Структурное сравнение", none, none, some (AXIOMS .A1),
              some "Выражения идентичны после нормализации"⟩]
           appliedAxioms := [AXIOMS .A1]
           hints := []
           substitution := none }, state1)
  else
  let expLeft := expandDefinitions normLeft state1
  let expRight := expandDefinitions normRight state1
  let expLeftStr := toCanonicalString expLeft
  let expRightStr := toCanonicalString expRight
  let changed := leftStr != expLeftStr || rightStr != expRightStr
  let steps2 : List ProofStep :=
    if changed then
      [step1,
       ⟨2, "Раскрытие определений", some (leftStr ++ " = " ++ rightStr),
        some (expLeftStr ++ " = " ++ expRightStr), some (AXIOMS .A0),
        some "Применена аксиома А0: определения раскрываются по форме"⟩]
    else [step1]
  let axioms2 : List AxiomInfo := if changed then [AXIOMS .A0] else []
  let state2 : ProverState :=
    { state1 with
      trace := state1.trace ++ ["After expansion: " ++ expLeftStr ++ " = " ++ expRightStr] }
  if astEqual expLeft expRight then
    .ok ({ success := true
           message := "Равенство после раскрытия определений (А0, А1)"
           steps := ["Expanded definitions", "Structural comparison"]
           proofSteps := steps2 ++
             [⟨steps2.length + 1, "Структурное сравнение после раскрытия", none, none,
               some (AXIOMS .A1), some "Выражения идентичны после раскрытия определений"⟩]
           appliedAxioms := axioms2 ++ [AXIOMS .A1]
           hints := []
           substitution := none }, state2)
  else
  match unify expLeft expRight with
  | some subst =>
      let substStr :=
        String.intercalate ", " (subst.map fun p => p.1 ++ " ↦ " ++ toCanonicalString p.2)
      .ok ({ success := true
             message := "Унификация успешна (А1: тождественность)"
             steps := ["Unification"]
             proofSteps := steps2 ++
               [⟨steps2.length + 1, "Унификация", none, none, some (AXIOMS .A1),
                 some (if substStr == "" then "Прямая унификация"
                       else "Подстановка: \x7b" ++ substStr ++ "\x7d")⟩]
             appliedAxioms := axioms2 ++ [AXIOMS .A1]
             hints := []
             substitution := some subst }, state2)
  | none =>
  let a5l : Option ProofResult :=
    match applyMaleAxiom expLeft with
    | some maleExp =>
        if astEqual maleExp expRight then
          some ({ success := true
                  message := "Применена аксиома А5: ♂x = (♂x → x)"
                  steps := ["♂x : (♂x -> x)"]
                  proofSteps := steps2 ++
                    [⟨steps2.length + 1, "Применение аксиомы А5", some expLeftStr,
                      some (toCanonicalString maleExp), some (AXIOMS .A5),
                      some "♂x раскрывается как (♂x → x)"⟩]
                  appliedAxioms := axioms2 ++ [AXIOMS .A5]
                  hints := []
                  substitution := none })
        else none
    | none => none
  let a5r : Option ProofResult :=
    match applyMaleAxiom expRight with
    | some maleExp =>
        if astEqual expLeft maleExp then
          some ({ success := true
                  message := "Применена аксиома А5 (обратное направление)"
                  steps := ["♂x : (♂x -> x)"]
                  proofSteps := steps2 ++
                    [⟨steps2.length + 1, "Применение аксиомы А5 (обратное)", some expRightStr,
                      some (toCanonicalString maleExp), some (AXIOMS .A5),
                      some "♂x раскрывается как (♂x → x)"⟩]
                  appliedAxioms := axioms2 ++ [AXIOMS .A5]
                  hints := []
                  substitution := none })
        else none
    | none => none
  let a6l : Option ProofResult :=
    match applyFemaleAxiom expLeft with
    | some femaleExp =>
        if astEqual femaleExp expRight then
          some ({ success := true
                  message := "Применена аксиома А6: x♀ = (x → x♀)"
                  steps := ["x♀ : (x -> x♀)"]
                  proofSteps := steps2 ++
                    [⟨steps2.length + 1, "Применение аксиомы А6", some expLeftStr,
                      some (toCanonicalString femaleExp), some (AXIOMS .A6),
                      some "x♀ раскрывается как (x → x♀)"⟩]
                  appliedAxioms := axioms2 ++ [AXIOMS .A6]
                  hints := []
                  substitution := none })
        else none
    | none => none
  let a6r : Option ProofResult :=
    match applyFemaleAxiom expRight with
    | some femaleExp =>
        if astEqual expLeft femaleExp then
          some ({ success := true
                  message := "Применена аксиома А6 (обратное направление)"
                  steps := ["x♀ : (x -> x♀)"]
                  proofSteps := steps2 ++
                    [⟨steps2.length + 1, "Применение аксиомы А6 (обратное)", some expRightStr,
                      some (toCanonicalString femaleExp), some (AXIOMS .A6),
                      some "x♀ раскрывается как (x → x♀)"⟩]
                  appliedAxioms := axioms2 ++ [AXIOMS .A6]
                  hints := []
                  substitution := none })
        else none
    | none => none
  let a4l : Option ProofResult :=
    if isInfinity expLeft then
      if astEqual (.link .infinity .infinity) expRight then
        some ({ success := true
                message := "Применена аксиома А4: ∞ = (∞ → ∞)"
                steps := ["∞ : (∞ -> ∞)"]
                proofSteps := steps2 ++
                  [⟨steps2.length + 1, "Применение аксиомы А4", some "∞", some "(∞ → ∞)",
                    some (AXIOMS .A4), some "∞ (акорень) раскрывается как (∞ → ∞)"⟩]
                appliedAxioms := axioms2 ++ [AXIOMS .A4]
                hints := []
                substitution := none })
      else none
    else none
  let a4r : Option ProofResult :=
    if isInfinity expRight then
      if astEqual expLeft (.link .infinity .infinity) then
        some ({ success := true
                message := "Применена аксиома А4 (обратное направление)"
                steps := ["∞ : (∞ -> ∞)"]
                proofSteps := steps2 ++
                  [⟨steps2.length + 1, "Применение аксиомы А4 (обратное)", some "(∞ → ∞)",
                    some "∞", some (AXIOMS .A4),
                    some "(∞ → ∞) сворачивается в ∞ (акорень)"⟩]
                appliedAxioms := axioms2 ++ [AXIOMS .A4]
                hints := []
                substitution := none })
      else none
    else none
  let failure : ProofResult :=
    { success := false
      message := "Невозможно доказать равенство"
      steps := state2.trace
      proofSteps := steps2 ++
        [⟨steps2.length + 1, "Верификация не удалась", none, none, none,
          some "Не найдена последовательность аксиом для доказательства равенства"⟩]
      appliedAxioms := axioms2
      hints := generateEqualityHints left right expLeft expRight
      substitution := none }
  .ok ((a5l <|> a5r <|> a6l <|> a6r <|> a4l <|> a4r).getD failure, state2)

/-- `checkInequality` (`part_010`): succeeds exactly when `checkEquality`
fails; on a proved equality the failure result echoes the equality's
`steps` and `appliedAxioms`. -/
def checkInequality (left right : Node) (state : ProverState) :
    Except NormError (ProofResult × ProverState) :=
  match checkEquality left right state with
  | .error e => .error e
  | .ok (eqResult, state') =>
    let step1 : ProofStep :=
      ⟨1, "Попытка доказать равенство", none, none, none,
       some ("Проверяем: " ++ toCanonicalString left ++ " = " ++ toCanonicalString right)⟩
    if !eqResult.success then
      .ok ({ success := true
             message := "Неравенство выполняется (равенство не может быть доказано)"
             steps := ["Tried to prove equality", "Failed", "Therefore inequality holds"]
             proofSteps := [step1,
               ⟨2, "Равенство не доказано", none, none, none,
                some "Не найдена последовательность аксиом для доказательства равенства"⟩,
               ⟨3, "Неравенство выполняется", none, none, none,
                some "Если равенство не может быть доказано, неравенство считается истинным"⟩]
             appliedAxioms := []
             hints := []
             substitution := none }, state')
    else
      .ok ({ success := false
             message := "Неравенство не выполняется (равенство может быть доказано)"
             steps := eqResult.steps
             proofSteps := [step1,
               ⟨2, "Равенство доказано", none, none, none, some eqResult.message⟩,
               ⟨3, "Неравенство не выполняется", none, none, none,
                some "Поскольку равенство может быть доказано, неравенство ложно"⟩]
             appliedAxioms := eqResult.appliedAxioms
             hints := [⟨.suggestion, "Выражения равны, поэтому неравенство не выполняется",
                        none⟩]
             substitution := none }, state')

/-- `verify` (`part_010`): normalize, then dispatch — `Equality` to
`checkEquality`, `Inequality` to `checkInequality`, a `Definition` with an
identifier name registers the normalized form (the only write to
`definitions`), and everything else fails with a descriptive hint. -/
def verify (node : Node) (state : ProverState) :
    Except NormError (ProofResult × ProverState) :=
  match normalize node with
  | .error e => .error e
  | .ok normalized =>
    match normalized with
    | .eq l r => checkEquality l r state
    | .neq l r => checkInequality l r state
    | .defn (.ident name) form =>
        .ok ({ success := true
               message := "Добавлено определение: " ++ name
               steps := ["Definition registered"]
               proofSteps := [⟨1, "Регистрация определения", none, none, some (AXIOMS .A0),
                               some (name ++ " : " ++ toCanonicalString form)⟩]
               appliedAxioms := [AXIOMS .A0]
               hints := []
               substitution := none },
             { state with definitions := substSet state.definitions name form })
    | .defn _ _ =>
        .ok ({ success := false
               message := "Имя определения должно быть идентификатором"
               steps := []
               proofSteps := []
               appliedAxioms := []
               hints := [⟨.structural, "Имя определения должно быть идентификатором", none⟩]
               substitution := none }, state)
    | _ =>
        .ok ({ success := false
               message := "Невозможно верифицировать выражение типа: " ++ nodeType node
               steps := []
               proofSteps := []
               appliedAxioms := []
               hints := [⟨.suggestion,
                 "Поддерживаемые типы выражений: равенство (=), неравенство (!=), определение (:)",
                 none⟩]
               substitution := none }, state)

/-! ## Normal forms: `normalize` produces fixed points of itself -/

/-- Is the node a `Not` expression? -/
def isNot : Node → Bool
  | .not .. => true
  | _ => false

/-- The boolean guard of `checkGuardedRecursion`: trivially true unless the
definition's name is a plain identifier. -/
def guardOk (n f : Node) : Bool :=
  match n with
  | .ident s => !containsIdent f s false
  | _ => true

mutual

/-- Syntactic characterization of `normalize`'s image: no `NotLink` or
`Power` remains, no `Not` directly wraps a `Not`/`Male`/`Female` (those are
exactly the `canonicalize` redexes), and every identifier-named definition
satisfies the guard check. -/
def nf : Node → Bool
  | .link l r => nf l && nf r
  | .notLink _ _ => false
  | .defn n f => nf n && nf f && guardOk n f
  | .eq l r => nf l && nf r
  | .neq l r => nf l && nf r
  | .male x => nf x
  | .female x => nf x
  | .not x => nf x && !isNot x && !isMale x && !isFemale x
  | .power _ _ => false
  | .set es => nfList es
  | _ => true

/-- `nf` on every element of a list. -/
def nfList : List Node → Bool
  | [] => true
  | x :: xs => nf x && nfList xs

end

/-- A normal form is a fixed point of `canonicalize`. -/
theorem nf_canonicalize (v : Node) (h : nf v = true) : canonicalize v = v := by
  match v with
  | .not x =>
      rw [nf] at h
      simp only [Bool.and_eq_true] at h
      match x with
      | .not _ => simp [isNot] at h
      | .male _ => simp [isMale] at h
      | .female _ => simp [isFemale] at h
      | .link _ _ | .notLink _ _ | .defn _ _ | .eq _ _ | .neq _ _ | .power _ _
      | .set _ | .infinity | .num _ | .ident _ | .charLit _ | .bracket _ => rfl
  | .link _ _ | .notLink _ _ | .defn _ _ | .eq _ _ | .neq _ _ | .male _ | .female _
  | .power _ _ | .set _ | .infinity | .num _ | .ident _ | .charLit _ | .bracket _ => rfl

/-- `canonicalize` of `Not` over a normal form yields a normal form. -/
theorem canonicalize_not_nf (x : Node) (h : nf x = true) :
    nf (canonicalize (.not x)) = true := by
  match x with
  | .not z =>
      rw [nf] at h
      simp only [Bool.and_eq_true] at h
      exact h.1.1.1
  | .male z =>
      rw [nf] at h
      show nf (Node.female z) = true
      rw [nf]
      exact h
  | .female z =>
      rw [nf] at h
      show nf (Node.male z) = true
      rw [nf]
      exact h
  | .link _ _ | .notLink _ _ | .defn _ _ | .eq _ _ | .neq _ _ | .power _ _
  | .set _ | .infinity | .num _ | .ident _ | .charLit _ | .bracket _ =>
      show nf (Node.not _) = true
      rw [nf]
      simp [h, isNot, isMale, isFemale]

/-- The expansion loop preserves normal forms. -/
theorem powChain_nf (b : Node) (hb : nf b = true) : ∀ k, nf (powChain b k) = true := by
  intro k
  induction k with
  | zero => rw [powChain, nf]; simp [hb]
  | succ k ih => rw [powChain, nf]; simp [hb, ih]

/-- `expandPower` of a normal-form base yields a normal form. -/
theorem expandPower_nf (b : Node) (e : Nat) (v : Node) (hb : nf b = true)
    (h : expandPower b e = .ok v) : nf v = true := by
  rw [expandPower] at h
  split at h
  · cases h
  · split at h
    · cases h; exact hb
    · cases h; exact powChain_nf b hb _

/-- The `guardOk` component holds after a successful
`checkGuardedRecursion`. -/
theorem checkGuarded_ok (n f : Node) (h : checkGuardedRecursion n f = .ok ()) :
    guardOk n f = true := by
  match n with
  | .ident s =>
      rw [checkGuardedRecursion] at h
      rw [guardOk]
      split at h
      · cases h
      · simp_all
  | .link _ _ | .notLink _ _ | .defn _ _ | .eq _ _ | .neq _ _ | .male _ | .female _
  | .not _ | .power _ _ | .set _ | .infinity | .num _ | .charLit _ | .bracket _ => rfl

/-- `checkGuardedRecursion` succeeds when `guardOk` holds. -/
theorem checkGuarded_of_guard (n f : Node) (h : guardOk n f = true) :
    checkGuardedRecursion n f = .ok () := by
  match n with
  | .ident s =>
      rw [checkGuardedRecursion]
      rw [guardOk] at h
      simp only [Bool.not_eq_true'] at h
      simp [h]
  | .link _ _ | .notLink _ _ | .defn _ _ | .eq _ _ | .neq _ _ | .male _ | .female _
  | .not _ | .power _ _ | .set _ | .infinity | .num _ | .charLit _ | .bracket _ => rfl

mutual

/-- Everything `normalize` returns is a normal form. -/
theorem normalize_nf : ∀ (x y : Node), normalize x = .ok y → nf y = true
  | .link l r, y, h => by
      rw [normalize] at h
      cases hl : normalize l with
      | error e => simp [hl] at h
      | ok l' =>
        cases hr : normalize r with
        | error e => simp [hl, hr] at h
        | ok r' =>
          simp only [hl, hr, Except.ok.injEq] at h
          subst h
          show nf (Node.link l' r') = true
          rw [nf]
          simp [normalize_nf l l' hl, normalize_nf r r' hr]
  | .notLink l r, y, h => by
      rw [normalize] at h
      cases hl : normalize l with
      | error e => simp [hl] at h
      | ok l' =>
        cases hr : normalize r with
        | error e => simp [hl, hr] at h
        | ok r' =>
          simp only [hl, hr, Except.ok.injEq] at h
          subst h
          show nf (Node.not (.link l' r')) = true
          rw [nf]
          have : nf (Node.link l' r') = true := by
            rw [nf]; simp [normalize_nf l l' hl, normalize_nf r r' hr]
          simp [this, isNot, isMale, isFemale]
  | .defn n f, y, h => by
      rw [normalize] at h
      cases hn : normalize n with
      | error e => simp [hn] at h
      | ok n' =>
        cases hf : normalize f with
        | error e => simp [hn, hf] at h
        | ok f' =>
          cases hg : checkGuardedRecursion n' f' with
          | error e => simp [hn, hf, hg] at h
          | ok u =>
            cases u
            simp only [hn, hf, hg, Except.ok.injEq] at h
            subst h
            show nf (Node.defn n' f') = true
            rw [nf]
            simp [normalize_nf n n' hn, normalize_nf f f' hf, checkGuarded_ok n' f' hg]
  | .eq l r, y, h => by
      rw [normalize] at h
      cases hl : normalize l with
      | error e => simp [hl] at h
      | ok l' =>
        cases hr : normalize r with
        | error e => simp [hl, hr] at h
        | ok r' =>
          simp only [hl, hr, Except.ok.injEq] at h
          subst h
          show nf (Node.eq l' r') = true
          rw [nf]
          simp [normalize_nf l l' hl, normalize_nf r r' hr]
  | .neq l r, y, h => by
      rw [normalize] at h
      cases hl : normalize l with
      | error e => simp [hl] at h
      | ok l' =>
        cases hr : normalize r with
        | error e => simp [hl, hr] at h
        | ok r' =>
          simp only [hl, hr, Except.ok.injEq] at h
          subst h
          show nf (Node.neq l' r') = true
          rw [nf]
          simp [normalize_nf l l' hl, normalize_nf r r' hr]
  | .male x, y, h => by
      rw [normalize] at h
      cases hx : normalize x with
      | error e => simp [hx] at h
      | ok x' =>
        simp only [hx, Except.ok.injEq] at h
        subst h
        show nf (Node.male x') = true
        rw [nf]
        exact normalize_nf x x' hx
  | .female x, y, h => by
      rw [normalize] at h
      cases hx : normalize x with
      | error e => simp [hx] at h
      | ok x' =>
        simp only [hx, Except.ok.injEq] at h
        subst h
        show nf (Node.female x') = true
        rw [nf]
        exact normalize_nf x x' hx
  | .not x, y, h => by
      rw [normalize] at h
      cases hx : normalize x with
      | error e => simp [hx] at h
      | ok x' =>
        simp only [hx, Except.ok.injEq] at h
        subst h
        exact canonicalize_not_nf x' (normalize_nf x x' hx)
  | .power b e, y, h => by
      rw [normalize] at h
      cases hb : normalize b with
      | error e => simp [hb] at h
      | ok b' =>
        cases hv : expandPower b' e with
        | error e => simp [hb, hv] at h
        | ok v =>
          simp only [hb, hv, Except.ok.injEq] at h
          subst h
          have hvnf : nf v = true := expandPower_nf b' e v (normalize_nf b b' hb) hv
          rw [nf_canonicalize v hvnf]
          exact hvnf
  | .set es, y, h => by
      rw [normalize] at h
      cases hes : normalizeList es with
      | error e => simp [hes] at h
      | ok es' =>
        simp only [hes, Except.ok.injEq] at h
        subst h
        show nf (Node.set es') = true
        rw [nf]
        exact normalizeList_nf es es' hes
  | .infinity, y, h => by
      rw [normalize] at h
      cases h
      rfl
  | .num v, y, h => by
      rw [normalize] at h
      cases h
      rfl
  | .ident n, y, h => by
      rw [normalize] at h
      cases h
      rfl
  | .charLit c, y, h => by
      rw [normalize] at h
      cases h
      rfl
  | .bracket b, y, h => by
      rw [normalize] at h
      cases h
      rfl

/-- Everything `normalizeList` returns is a list of normal forms. -/
theorem normalizeList_nf : ∀ (xs ys : List Node), normalizeList xs = .ok ys →
    nfList ys = true
  | [], ys, h => by
      rw [normalizeList] at h
      cases h
      rfl
  | x :: xs, ys, h => by
      rw [normalizeList] at h
      cases hx : normalize x with
      | error e => simp [hx] at h
      | ok x' =>
        cases hxs : normalizeList xs with
        | error e => simp [hx, hxs] at h
        | ok xs' =>
          simp only [hx, hxs, Except.ok.injEq] at h
          subst h
          rw [nfList]
          simp [normalize_nf x x' hx, normalizeList_nf xs xs' hxs]

end

mutual

/-- A normal form is a fixed point of `normalize`. -/
theorem nf_normalize : ∀ (x : Node), nf x = true → normalize x = .ok x
  | .link l r, h => by
      rw [nf] at h
      simp only [Bool.and_eq_true] at h
      simp only [normalize, nf_normalize l h.1, nf_normalize r h.2]
      rfl
  | .defn n f, h => by
      rw [nf] at h
      simp only [Bool.and_eq_true] at h
      simp only [normalize, nf_normalize n h.1.1, nf_normalize f h.1.2,
        checkGuarded_of_guard n f h.2]
      rfl
  | .eq l r, h => by
      rw [nf] at h
      simp only [Bool.and_eq_true] at h
      simp only [normalize, nf_normalize l h.1, nf_normalize r h.2]
      rfl
  | .neq l r, h => by
      rw [nf] at h
      simp only [Bool.and_eq_true] at h
      simp only [normalize, nf_normalize l h.1, nf_normalize r h.2]
      rfl
  | .male x, h => by
      rw [nf] at h
      simp only [normalize, nf_normalize x h]
      rfl
  | .female x, h => by
      rw [nf] at h
      simp only [normalize, nf_normalize x h]
      rfl
  | .not x, h => by
      have hx : nf x = true := by
        rw [nf] at h
        simp only [Bool.and_eq_true] at h
        exact h.1.1.1
      simp only [normalize, nf_normalize x hx]
      show Except.ok (canonicalize (.not x)) = _
      rw [nf_canonicalize (.not x) h]
  | .notLink l r, h => by rw [nf] at h; cases h
  | .power b e, h => by rw [nf] at h; cases h
  | .set es, h => by
      rw [nf] at h
      simp only [normalize, nfList_normalize es h]
      rfl
  | .infinity, _ => rfl
  | .num v, _ => rfl
  | .ident n, _ => rfl
  | .charLit c, _ => rfl
  | .bracket b, _ => rfl

/-- A list of normal forms is a fixed point of `normalizeList`. -/
theorem nfList_normalize : ∀ (xs : List Node), nfList xs = true →
    normalizeList xs = .ok xs
  | [], _ => rfl
  | x :: xs, h => by
      rw [nfList] at h
      simp only [Bool.and_eq_true] at h
      rw [normalizeList, nf_normalize x h.1, nfList_normalize xs h.2]

end

/-! ## Claim theorems -/

/-- **C6**: Normalization is idempotent up to canonical string: for every AST
node `x` on which `normalize` does not throw, normalizing the result again
succeeds and leaves the canonical string unchanged (indeed it returns the
result itself). -/
theorem C6_normalize_idempotent (x y : Node) (h : normalize x = .ok y) :
    ∃ z, normalize y = .ok z ∧ toCanonicalString z = toCanonicalString y :=
  ⟨y, nf_normalize y (normalize_nf x y h), rfl⟩

/-- Witness for C6 at `x = !!∞` (normalizing to `∞`). -/
theorem C6_normalize_idempotent_witness :
    ∃ z, normalize Node.infinity = .ok z ∧
      toCanonicalString z = toCanonicalString Node.infinity :=
  C6_normalize_idempotent (.not (.not .infinity)) .infinity rfl

/-- **C1 counterexample**: the claim asserts `normalize(parse("x : x^2"))`
throws because Power nesting does not guard the occurrence; in the code the
power is expanded *before* the guard check runs (`normalizeNode` normalizes
the form first), so the occurrence sits under a `Link` and the definition is
accepted: `parse("x : x^2")` is `Definition(Identifier x, Power(Identifier
x, 2))` and its normalization succeeds. -/
theorem C1_counterexample :
    normalize (Node.defn (.ident "x") (.power (.ident "x") 2)) =
      .ok (.defn (.ident "x") (.link (.ident "x") (.ident "x"))) := rfl

/-- **C1 (amended)**: for a `Definition` whose name is a plain identifier and
whose form normalizes successfully, `normalize` throws exactly when the name
occurs unguarded in the *normalized* form (in particular `x : x` throws and
`inf : (inf -> inf)` does not, while `x : x^2` does not because power
expansion precedes the guard check). -/
theorem C1_guarded_recursion (n : String) (form form' : Node)
    (h : normalize form = .ok form') :
    (∃ e, normalize (Node.defn (.ident n) form) = .error e) ↔
      containsIdent form' n false = true := by
  have hname : normalize (Node.ident n) = .ok (.ident n) := rfl
  rw [normalize]
  simp only [hname, h, checkGuardedRecursion]
  cases hc : containsIdent form' n false
  · simp
  · simp

/-- Witness for C1 at `x : x` (which throws: the occurrence is unguarded). -/
theorem C1_guarded_recursion_witness :
    (∃ e, normalize (Node.defn (.ident "x") (.ident "x")) = .error e) ↔
      containsIdent (.ident "x") "x" false = true :=
  C1_guarded_recursion "x" (.ident "x") (.ident "x") rfl

/-- **C7**: power expansion is the left-associative link chain — `a^1`
normalizes exactly like `a`, `a^2` like `a->a`, `a^3` like `(a->a)->a` (so
their canonical strings agree), and an exponent `< 1` makes `normalize`
throw a `NormalizationError`. -/
theorem C7_power_expansion (a : Node) (e : Nat) :
    normalize (Node.power a 1) = normalize a ∧
    normalize (Node.power a 2) = normalize (Node.link a a) ∧
    normalize (Node.power a 3) = normalize (Node.link (.link a a) a) ∧
    (e < 1 → ∃ err, normalize (Node.power a e) = .error err) := by
  cases ha : normalize a with
  | error err =>
      refine ⟨?_, ?_, ?_, ?_⟩
      · simp only [normalize, ha]
      · simp only [normalize, ha]
      · simp only [normalize, ha]
      · intro _
        exact ⟨err, by simp only [normalize, ha]⟩
  | ok a' =>
      have hnf : nf a' = true := normalize_nf a a' ha
      refine ⟨?_, ?_, ?_, ?_⟩
      · simp only [normalize, ha, expandPower]
        norm_num
        rw [nf_canonicalize a' hnf]
      · simp only [normalize, ha, expandPower]
        norm_num
        rfl
      · simp only [normalize, ha, expandPower]
        norm_num
        rfl
      · intro hlt
        interval_cases e
        exact ⟨.powerExponent, by simp only [normalize, ha, expandPower]; norm_num⟩

/-- Witness for C7's exponent clause at `a = ∞`, `e = 0`. -/
theorem C7_power_expansion_witness :
    ∃ err, normalize (Node.power .infinity 0) = .error err :=
  (C7_power_expansion .infinity 0).2.2.2 (by norm_num)

/-- **C3**: the A4/A5/A6 schema checks run once, non-recursively: on a fresh
state, `∞ = ∞ -> ∞` succeeds reporting exactly axiom A4, while
`∞ = ∞ -> ∞ -> ∞` (left-associated: `(∞->∞)->∞`) fails even though it
follows from two A4 applications. -/
theorem C3_schema_single_shot :
    (checkEquality .infinity (.link .infinity .infinity) createProverState).map
        (fun rs => (rs.1.success, rs.1.appliedAxioms.map fun ai => ai.id)) =
      .ok (true, [.A4]) ∧
    (checkEquality .infinity (.link (.link .infinity .infinity) .infinity)
        createProverState).map (fun rs => rs.1.success) = .ok false :=
  ⟨rfl, rfl⟩

/-- **C8**: `expandDefinitions` replaces only `Identifier` nodes, so the
constant nodes the seeded definition keys would otherwise match —
`Infinity`, `Num`, `Bracket` — are returned unchanged under every state;
consequently on a fresh state the equality `1 = ♂∞ -> ∞♀` fails despite the
seeded definition `1 := ♂∞->∞♀` (the literal `1` parses to a `Num` node,
not an `Identifier`). -/
theorem C8_constants_never_expanded :
    (∀ s : ProverState, expandDefinitions .infinity s = .infinity) ∧
    (∀ (s : ProverState) (v : Fin 2), expandDefinitions (.num v) s = .num v) ∧
    (∀ (s : ProverState) (b : Bool), expandDefinitions (.bracket b) s = .bracket b) ∧
    (checkEquality (.num 1) (.link (.male .infinity) (.female .infinity))
        createProverState).map (fun rs => rs.1.success) = .ok false := by
  refine ⟨?_, ?_, ?_, rfl⟩
  · intro s
    rw [expandDefinitions]
    cases s.definitions.length <;> rfl
  · intro s v
    rw [expandDefinitions]
    cases s.definitions.length <;> rfl
  · intro s b
    rw [expandDefinitions]
    cases s.definitions.length <;> rfl

/-- **C2 counterexample**: the claim says `verify` of an `Equality` leaves
every field of the state unchanged, including `trace`; but `checkEquality`
pushes onto `state.trace`, so verifying `u = u` on a fresh state grows the
trace from `[]` to one entry. -/
theorem C2_counterexample :
    (verify (.eq (.ident "u") (.ident "u")) createProverState).map
        (fun p => p.2.trace) = .ok ["Checking: u = u"] ∧
    createProverState.trace = [] :=
  ⟨rfl, rfl⟩

/-- **C9 counterexample**: the claim says an equality between two distinct
single-letter identifiers succeeds on *any* state; but definitions are
expanded first, so after `a : 0.` and `b : ∞.` the equality `a = b` becomes
`0 = ∞` and fails. -/
theorem C9_counterexample :
    ((verify (.defn (.ident "a") (.num 0)) createProverState).bind fun p1 =>
     (verify (.defn (.ident "b") .infinity) p1.2).bind fun p2 =>
     (verify (.eq (.ident "a") (.ident "b")) p2.2).map fun p3 => p3.1.success) =
      .ok false := rfl

/-! ## Unification of a fresh variable (C4, C9) -/

theorem isVariable_data (name : String) (hvar : isVariable name = true) :
    ∃ c, name.data = [c] ∧ 'a' ≤ c ∧ c ≤ 'z' := by
  rw [isVariable] at hvar
  rcases hm : name.data with _ | ⟨c, _ | ⟨d, tl⟩⟩ <;> rw [hm] at hvar
  · simp at hvar
  · simp only [Bool.and_eq_true, decide_eq_true_eq] at hvar
    exact ⟨c, rfl, hvar.1, hvar.2⟩
  · simp at hvar

theorem canonical_var_ident (T : Node) (name : String) (hvar : isVariable name = true)
    (h : toCanonicalString T = name) : T = .ident name := by
  obtain ⟨c, hdata, hc1, hc2⟩ := isVariable_data name hvar
  have hd : (toCanonicalString T).data = [c] := by rw [h, hdata]
  match T with
  | .ident m =>
      rw [toCanonicalString] at h
      rw [h]
  | .link l r =>
      exfalso
      rw [toCanonicalString] at hd
      simp only [String.data_append, List.singleton_append, List.cons_append,
        List.append_assoc] at hd
      injection hd with h1 h2
      rw [← h1] at hc1
      exact absurd hc1 (by decide)
  | .notLink l r =>
      exfalso
      rw [toCanonicalString] at hd
      simp only [String.data_append, List.singleton_append, List.cons_append,
        List.append_assoc] at hd
      injection hd with h1 h2
      rw [← h1] at hc1
      exact absurd hc1 (by decide)
  | .defn n f =>
      exfalso
      rw [toCanonicalString] at hd
      simp only [String.data_append, List.singleton_append, List.cons_append,
        List.append_assoc] at hd
      injection hd with h1 h2
      rw [← h1] at hc1
      exact absurd hc1 (by decide)
  | .eq l r =>
      exfalso
      rw [toCanonicalString] at hd
      simp only [String.data_append, List.singleton_append, List.cons_append,
        List.append_assoc] at hd
      injection hd with h1 h2
      rw [← h1] at hc1
      exact absurd hc1 (by decide)
  | .neq l r =>
      exfalso
      rw [toCanonicalString] at hd
      simp only [String.data_append, List.singleton_append, List.cons_append,
        List.append_assoc] at hd
      injection hd with h1 h2
      rw [← h1] at hc1
      exact absurd hc1 (by decide)
  | .male x =>
      exfalso
      rw [toCanonicalString] at hd
      simp only [String.data_append, List.singleton_append, List.cons_append,
        List.append_assoc] at hd
      injection hd with h1 h2
      rw [← h1] at hc2
      exact absurd hc2 (by decide)
  | .not x =>
      exfalso
      rw [toCanonicalString] at hd
      simp only [String.data_append, List.singleton_append, List.cons_append,
        List.append_assoc] at hd
      injection hd with h1 h2
      rw [← h1] at hc1
      exact absurd hc1 (by decide)
  | .set es =>
      exfalso
      rw [toCanonicalString] at hd
      simp only [String.data_append, List.singleton_append, List.cons_append,
        List.append_assoc] at hd
      injection hd with h1 h2
      rw [← h1] at hc2
      exact absurd hc2 (by decide)
  | .infinity =>
      exfalso
      rw [toCanonicalString] at hd
      injection hd with h1 h2
      rw [← h1] at hc2
      exact absurd hc2 (by decide)
  | .bracket b =>
      exfalso
      rw [toCanonicalString] at hd
      cases b
      · simp only [if_neg, if_pos, Bool.false_eq_true, ite_false] at hd
        injection hd with h1 h2
        rw [← h1] at hc1
        exact absurd hc1 (by decide)
      · simp only [ite_true] at hd
        injection hd with h1 h2
        rw [← h1] at hc1
        exact absurd hc1 (by decide)
  | .charLit ch =>
      exfalso
      rw [toCanonicalString] at hd
      simp only [String.data_append, List.singleton_append, List.cons_append,
        List.append_assoc] at hd
      injection hd with h1 h2
      simp at h2
  | .female x =>
      exfalso
      rw [toCanonicalString] at hd
      simp only [String.data_append] at hd
      rcases hA : (toCanonicalString x).data with _ | ⟨a, as'⟩
      · rw [hA] at hd
        simp only [List.nil_append] at hd
        injection hd with h1 h2
        rw [← h1] at hc2
        exact absurd hc2 (by decide)
      · rw [hA] at hd
        simp only [List.cons_append] at hd
        injection hd with h1 h2
        simp at h2
  | .power b e =>
      exfalso
      rw [toCanonicalString] at hd
      simp only [String.data_append, List.append_assoc] at hd
      rcases hA : (toCanonicalString b).data with _ | ⟨a, as'⟩
      · rw [hA] at hd
        simp only [List.nil_append, List.singleton_append] at hd
        injection hd with h1 h2
        rw [← h1] at hc1
        exact absurd hc1 (by decide)
      · rw [hA] at hd
        simp only [List.cons_append] at hd
        injection hd with h1 h2
        simp at h2
  | .num v =>
      exfalso
      rw [toCanonicalString] at hd
      rcases v with ⟨nv, hnv⟩
      interval_cases nv
      · rw [show (⟨0, hnv⟩ : Fin 2).val = 0 from rfl] at hd
        have hd' : ('0' :: [] : List Char) = [c] := hd
        injection hd' with h1 h2
        rw [← h1] at hc1
        exact absurd hc1 (by decide)
      · rw [show (⟨1, hnv⟩ : Fin 2).val = 1 from rfl] at hd
        have hd' : ('1' :: [] : List Char) = [c] := hd
        injection hd' with h1 h2
        rw [← h1] at hc1
        exact absurd hc1 (by decide)

/-- The empty substitution is the identity for `applySubstitution`. -/
theorem applySubstitution_nil (node : Node) : applySubstitution node [] = node := by
  show applySubstitutionFuel 0 [] node = node
  cases node <;> rfl

/-- Unifying an unbound variable with a term it does not occur in binds the
variable to that term. -/
theorem unify_fresh_var (name : String) (T : Node) (hvar : isVariable name = true)
    (hocc : occursIn name T = false) :
    unify (.ident name) T = some [(name, T)] := by
  have hne : (toCanonicalString T = name) → False := by
    intro heq
    have hT : T = .ident name := canonical_var_ident T name hvar heq
    rw [hT, occursIn] at hocc
    simp at hocc
  rw [unify, unifyFuel]
  simp only [applySubstitution_nil]
  rw [show toCanonicalString (Node.ident name) = name from rfl]
  have hbeq : (name == toCanonicalString T) = false := by
    simp only [beq_eq_false_iff_ne, ne_eq]
    intro heq
    exact hne heq.symm
  rw [hbeq]
  simp only [Bool.false_eq_true, if_false]
  simp only [show getVar (Node.ident name) = some name by rw [getVar, hvar]; rfl]
  rw [unifyVar.eq_def]
  simp only [substGet, hocc, Bool.false_eq_true, if_false]
  rfl

/-- The occurs-check: unifying a variable with a `Link` containing it fails. -/
theorem unify_occurs_fails (name : String) (a : Node) (hvar : isVariable name = true) :
    unify (.ident name) (.link (.ident name) a) = none := by
  have hne : (toCanonicalString (Node.link (.ident name) a) = name) → False := by
    intro heq
    exact Node.noConfusion (canonical_var_ident _ name hvar heq)
  rw [unify, unifyFuel]
  simp only [applySubstitution_nil]
  rw [show toCanonicalString (Node.ident name) = name from rfl]
  have hbeq : (name == toCanonicalString (Node.link (.ident name) a)) = false := by
    simp only [beq_eq_false_iff_ne, ne_eq]
    intro heq
    exact hne heq.symm
  rw [hbeq]
  simp only [Bool.false_eq_true, if_false]
  simp only [show getVar (Node.ident name) = some name by rw [getVar, hvar]; rfl]
  rw [unifyVar.eq_def]
  have hocc : occursIn name (Node.link (.ident name) a) = true := by
    rw [occursIn, occursIn]
    simp
  simp only [substGet, hocc, if_true]

/-- **C4**: for every term `T` and single-lowercase-letter identifier, if the
variable does not occur in `T` then unification with the empty substitution
succeeds and binds the variable to `T`; and unifying the variable with
`Link(x, a)` fails by the occurs-check. -/
theorem C4_unify_variable (name : String) (T a : Node)
    (hvar : isVariable name = true) (hocc : occursIn name T = false) :
    unify (.ident name) T = some [(name, T)] ∧
    unify (.ident name) (.link (.ident name) a) = none :=
  ⟨unify_fresh_var name T hvar hocc, unify_occurs_fails name a hvar⟩

/-- Witness for C4 at `x`, `T = ∞`, `a = ∞`. -/
theorem C4_unify_variable_witness :
    unify (.ident "x") .infinity = some [("x", .infinity)] ∧
    unify (.ident "x") (.link (.ident "x") .infinity) = none :=
  C4_unify_variable "x" .infinity .infinity rfl rfl

/-! ## Set permutation and canonical sorting (C10) -/

namespace C10Dev

theorem lexLe_total : ∀ (as' bs : List Char), lexLe as' bs = true ∨ lexLe bs as' = true
  | [], _ => .inl rfl
  | _ :: _, [] => .inr rfl
  | a :: as', b :: bs => by
      rcases lt_trichotomy a b with h | h | h
      · left; rw [lexLe]; simp [h]
      · subst h
        rcases lexLe_total as' bs with ih | ih
        · left; rw [lexLe]; simp [lt_irrefl, ih]
        · right; rw [lexLe]; simp [lt_irrefl, ih]
      · right; rw [lexLe]; simp [h]

theorem lexLe_antisymm : ∀ (as' bs : List Char),
    lexLe as' bs = true → lexLe bs as' = true → as' = bs
  | [], [], _, _ => rfl
  | [], _ :: _, _, h2 => by rw [lexLe] at h2; cases h2
  | _ :: _, [], h1, _ => by rw [lexLe] at h1; cases h1
  | a :: as', b :: bs, h1, h2 => by
      rcases lt_trichotomy a b with h | h | h
      · rw [lexLe] at h2
        simp [asymm h, h] at h2
      · subst h
        rw [lexLe] at h1 h2
        simp only [lt_irrefl, if_false] at h1 h2
        rw [lexLe_antisymm as' bs h1 h2]
      · rw [lexLe] at h1
        simp [asymm h, h] at h1

theorem lexLe_trans : ∀ (as' bs cs : List Char),
    lexLe as' bs = true → lexLe bs cs = true → lexLe as' cs = true
  | [], _, _, _, _ => rfl
  | _ :: _, [], _, h1, _ => by rw [lexLe] at h1; cases h1
  | _ :: _, _ :: _, [], _, h2 => by rw [lexLe] at h2; cases h2
  | a :: as', b :: bs, c :: cs, h1, h2 => by
      rw [lexLe] at h1 h2 ⊢
      rcases lt_trichotomy a b with hab | hab | hab
      · rcases lt_trichotomy b c with hbc | hbc | hbc
        · simp [lt_trans hab hbc]
        · subst hbc; simp [hab]
        · simp [asymm hbc, hbc] at h2
      · subst hab
        rcases lt_trichotomy a c with hac | hac | hac
        · simp [hac]
        · subst hac
          simp only [lt_irrefl, if_false] at h1 h2 ⊢
          exact lexLe_trans as' bs cs h1 h2
        · simp [asymm hac, hac] at h2
      · simp [asymm hab, hab] at h1

end C10Dev

/-- `strLe` as a propositional relation, for the sortedness lemmas. -/
def strLeP (a b : String) : Prop := strLe a b = true

instance : IsTotal String strLeP := ⟨fun a b => C10Dev.lexLe_total a.data b.data⟩

instance : IsTrans String strLeP :=
  ⟨fun a b c h1 h2 => C10Dev.lexLe_trans a.data b.data c.data h1 h2⟩

instance : IsAntisymm String strLeP :=
  ⟨fun a b h1 h2 => String.ext (C10Dev.lexLe_antisymm a.data b.data h1 h2)⟩

theorem insertSorted_perm (s : String) : ∀ l, (insertSorted s l).Perm (s :: l)
  | [] => .refl _
  | t :: ts => by
      rw [insertSorted]
      split
      · exact .refl _
      · exact ((insertSorted_perm s ts).cons t).trans (.swap s t ts)

theorem sortStrings_perm : ∀ l, (sortStrings l).Perm l
  | [] => .refl _
  | s :: ss => by
      rw [sortStrings]
      exact (insertSorted_perm s (sortStrings ss)).trans ((sortStrings_perm ss).cons s)

theorem insertSorted_sorted (s : String) :
    ∀ l, List.Sorted strLeP l → List.Sorted strLeP (insertSorted s l)
  | [], _ => by simp [insertSorted]
  | t :: ts, h => by
      rw [List.sorted_cons] at h
      rw [insertSorted]
      split
      · next hst =>
          rw [List.sorted_cons]
          refine ⟨?_, List.sorted_cons.mpr h⟩
          intro b hb
          rcases List.mem_cons.mp hb with rfl | hb'
          · exact hst
          · exact IsTrans.trans (r := strLeP) s t b hst (h.1 b hb')
      · next hst =>
          rw [List.sorted_cons]
          refine ⟨?_, insertSorted_sorted s ts h.2⟩
          intro b hb
          rcases List.mem_cons.mp ((insertSorted_perm s ts).mem_iff.mp hb) with rfl | hb'
          · rcases IsTotal.total (r := strLeP) t b with hh | hh
            · exact hh
            · exact absurd hh hst
          · exact h.1 b hb'

theorem sortStrings_sorted : ∀ l, List.Sorted strLeP (sortStrings l)
  | [] => by simp [sortStrings]
  | s :: ss => by
      rw [sortStrings]
      exact insertSorted_sorted s _ (sortStrings_sorted ss)

theorem sortStrings_perm_congr (l1 l2 : List String) (h : l1.Perm l2) :
    sortStrings l1 = sortStrings l2 :=
  List.eq_of_perm_of_sorted
    ((sortStrings_perm l1).trans (h.trans (sortStrings_perm l2).symm))
    (sortStrings_sorted l1) (sortStrings_sorted l2)

theorem canonList_map : ∀ es, canonList es = es.map toCanonicalString
  | [] => rfl
  | x :: xs => by rw [canonList, List.map_cons, canonList_map xs]

theorem set_perm_canonical (es1 es2 : List Node) (h : es1.Perm es2) :
    toCanonicalString (.set es1) = toCanonicalString (.set es2) := by
  rw [toCanonicalString, toCanonicalString, canonList_map, canonList_map,
    sortStrings_perm_congr _ _ (h.map _)]

theorem applyStepList_map (j : String → Node → Node) (s : Subst) :
    ∀ es, applyStepList j s es = es.map (applyStep j s)
  | [] => rfl
  | x :: xs => by rw [applyStepList, List.map_cons, applyStepList_map j s xs]

theorem applySubstitution_set (subst : Subst) :
    ∃ g : Node → Node, ∀ es2 : List Node,
      applySubstitution (.set es2) subst = .set (es2.map g) := by
  cases subst with
  | nil =>
      refine ⟨fun x => x, fun es2 => ?_⟩
      rw [applySubstitution_nil, List.map_id']
  | cons p ps =>
      refine ⟨applyStep (fun _ t => applySubstitutionFuel ps.length (p :: ps) t) (p :: ps),
        fun es2 => ?_⟩
      show applySubstitutionFuel (ps.length + 1) (p :: ps) (.set es2) = _
      rw [applySubstitutionFuel, applyStep.eq_def]
      simp only [List.isEmpty_cons, Bool.false_eq_true, if_false]
      rw [applyStepList_map]

/-- **C10**: two `Set` terms that differ only by a permutation of their
elements unify with the substitution returned unchanged: `unify` first
compares canonical strings, `toCanonicalString` sorts `Set` elements, and a
permutation survives the up-front substitution application, so the
canonical strings agree (covering in particular all variable-free sets and
the `Set(b,a)`/`Set(a,b)` example). -/
theorem C10_set_unify_perm (es1 es2 : List Node) (subst : Subst)
    (h : es1.Perm es2) : unify (.set es1) (.set es2) subst = some subst := by
  obtain ⟨g, hg⟩ := applySubstitution_set subst
  rw [unify, unifyFuel]
  simp only [hg es1, hg es2]
  rw [set_perm_canonical _ _ (h.map g)]
  simp

/-- Witness for C10 at `Set(b,a)` vs `Set(a,b)` with the empty
substitution. -/
theorem C10_set_unify_perm_witness :
    unify (.set [.ident "b", .ident "a"]) (.set [.ident "a", .ident "b"]) [] = some [] :=
  C10_set_unify_perm [.ident "b", .ident "a"] [.ident "a", .ident "b"] []
    (List.Perm.swap (Node.ident "a") (Node.ident "b") [])

/-! ## Frame properties of the decision procedures (C2, C5) -/

theorem checkEquality_frame (l r : Node) (s : ProverState) (res : ProofResult)
    (s' : ProverState) (h : checkEquality l r s = .ok (res, s')) :
    s'.definitions = s.definitions ∧ s'.facts = s.facts ∧ s'.axioms = s.axioms ∧
    ∃ t, s'.trace = s.trace ++ t := by
  rw [checkEquality] at h
  cases hl : normalize l with
  | error e => rw [hl] at h; cases h
  | ok nl =>
  cases hr : normalize r with
  | error e => rw [hl, hr] at h; cases h
  | ok nr =>
  rw [hl, hr] at h
  dsimp only at h
  split at h
  · simp only [Except.ok.injEq, Prod.mk.injEq] at h
    obtain ⟨-, h2⟩ := h
    subst h2
    exact ⟨rfl, rfl, rfl, _, rfl⟩
  · split at h
    · simp only [Except.ok.injEq, Prod.mk.injEq] at h
      obtain ⟨-, h2⟩ := h
      subst h2
      exact ⟨rfl, rfl, rfl, _, List.append_assoc _ _ _⟩
    · split at h
      · simp only [Except.ok.injEq, Prod.mk.injEq] at h
        obtain ⟨-, h2⟩ := h
        subst h2
        exact ⟨rfl, rfl, rfl, _, List.append_assoc _ _ _⟩
      · simp only [Except.ok.injEq, Prod.mk.injEq] at h
        obtain ⟨-, h2⟩ := h
        subst h2
        exact ⟨rfl, rfl, rfl, _, List.append_assoc _ _ _⟩

theorem checkInequality_frame (l r : Node) (s : ProverState) (res : ProofResult)
    (s' : ProverState) (h : checkInequality l r s = .ok (res, s')) :
    s'.definitions = s.definitions ∧ s'.facts = s.facts ∧ s'.axioms = s.axioms ∧
    ∃ t, s'.trace = s.trace ++ t := by
  rw [checkInequality] at h
  cases he : checkEquality l r s with
  | error e => rw [he] at h; cases h
  | ok p =>
    obtain ⟨eqR, st⟩ := p
    rw [he] at h
    dsimp only at h
    split at h
    · simp only [Except.ok.injEq, Prod.mk.injEq] at h
      obtain ⟨-, h2⟩ := h
      subst h2
      exact checkEquality_frame l r s eqR _ he
    · simp only [Except.ok.injEq, Prod.mk.injEq] at h
      obtain ⟨-, h2⟩ := h
      subst h2
      exact checkEquality_frame l r s eqR _ he

/-- **C2 (amended)**: `verify` of an `Equality` or `Inequality` statement
leaves `definitions`, `facts` and `axioms` unchanged, and only *appends* to
`trace` (the claim's assertion that `trace` too is untouched fails:
`checkEquality` pushes onto it, see the counterexample). -/
theorem C2_verify_frame (l r : Node) (s : ProverState) :
    (∀ res s', verify (.eq l r) s = .ok (res, s') →
      s'.definitions = s.definitions ∧ s'.facts = s.facts ∧ s'.axioms = s.axioms ∧
      ∃ t, s'.trace = s.trace ++ t) ∧
    (∀ res s', verify (.neq l r) s = .ok (res, s') →
      s'.definitions = s.definitions ∧ s'.facts = s.facts ∧ s'.axioms = s.axioms ∧
      ∃ t, s'.trace = s.trace ++ t) := by
  constructor
  · intro res s' h
    rw [verify] at h
    cases hl : normalize l with
    | error e => rw [show normalize (Node.eq l r) = .error e by rw [normalize, hl]] at h; cases h
    | ok nl =>
    cases hr : normalize r with
    | error e =>
        rw [show normalize (Node.eq l r) = .error e by rw [normalize, hl, hr]] at h
        cases h
    | ok nr =>
        rw [show normalize (Node.eq l r) = .ok (.eq nl nr) by
          simp only [normalize, hl, hr]; rfl] at h
        dsimp only at h
        exact checkEquality_frame nl nr s res s' h
  · intro res s' h
    rw [verify] at h
    cases hl : normalize l with
    | error e => rw [show normalize (Node.neq l r) = .error e by rw [normalize, hl]] at h; cases h
    | ok nl =>
    cases hr : normalize r with
    | error e =>
        rw [show normalize (Node.neq l r) = .error e by rw [normalize, hl, hr]] at h
        cases h
    | ok nr =>
        rw [show normalize (Node.neq l r) = .ok (.neq nl nr) by
          simp only [normalize, hl, hr]; rfl] at h
        dsimp only at h
        exact checkInequality_frame nl nr s res s' h

/-- Witness for C2 at `u = u` on the fresh state. -/
theorem C2_verify_frame_witness :
    ∃ res s', verify (.eq (.ident "u") (.ident "u")) createProverState = .ok (res, s') ∧
      (s'.definitions = createProverState.definitions ∧
       s'.facts = createProverState.facts ∧ s'.axioms = createProverState.axioms ∧
       ∃ t, s'.trace = createProverState.trace ++ t) :=
  ⟨_, _, rfl,
    (C2_verify_frame (.ident "u") (.ident "u") createProverState).1 _ _ rfl⟩

/-- **C5**: `checkInequality` succeeds exactly when `checkEquality` fails
(and propagates the same normalization errors); when the equality succeeds,
the inequality result is a failure carrying the equality result's
`steps`. -/
theorem C5_inequality_negation (l r : Node) (s : ProverState) :
    (∀ e, checkInequality l r s = .error e ↔ checkEquality l r s = .error e) ∧
    (∀ res s', checkInequality l r s = .ok (res, s') →
      ∃ eqRes, checkEquality l r s = .ok (eqRes, s') ∧
        res.success = !eqRes.success ∧
        (eqRes.success = true → res.steps = eqRes.steps)) := by
  cases he : checkEquality l r s with
  | error e0 =>
      have hi : checkInequality l r s = .error e0 := by rw [checkInequality, he]
      constructor
      · intro e
        rw [hi]
      · intro res s' h
        rw [hi] at h
        cases h
  | ok p =>
      obtain ⟨eqR, st⟩ := p
      constructor
      · intro e
        rw [checkInequality, he]
        dsimp only
        split <;> simp
      · intro res s' h
        rw [checkInequality, he] at h
        dsimp only at h
        split at h
        · next hc =>
            simp only [Except.ok.injEq, Prod.mk.injEq] at h
            obtain ⟨hres, h2⟩ := h
            subst h2
            refine ⟨eqR, rfl, ?_, ?_⟩
            · rw [← hres]
              simp only [Bool.not_eq_true'] at hc
              rw [hc]
              rfl
            · intro hh
              simp only [Bool.not_eq_true'] at hc
              rw [hh] at hc
              cases hc
        · next hc =>
            simp only [Except.ok.injEq, Prod.mk.injEq] at h
            obtain ⟨hres, h2⟩ := h
            subst h2
            have hsucc : eqR.success = true := by
              by_contra hx
              exact hc (by simp [Bool.not_eq_true] at hx ⊢; rw [hx])
            refine ⟨eqR, rfl, ?_, fun _ => ?_⟩
            · rw [← hres, hsucc]
              rfl
            · rw [← hres]

/-- Witness for C5 at `u = u` on the fresh state (equality provable, so the
inequality fails and echoes the equality's steps). -/
theorem C5_inequality_negation_witness :
    ∃ eqRes, checkEquality (.ident "u") (.ident "u") createProverState =
        .ok (eqRes, { createProverState with trace := ["Checking: u = u"] }) ∧
      (match checkInequality (.ident "u") (.ident "u") createProverState with
        | .ok (res, _) => res.success
        | .error _ => true) = !eqRes.success ∧
      (eqRes.success = true →
        (match checkInequality (.ident "u") (.ident "u") createProverState with
          | .ok (res, _) => res.steps
          | .error _ => []) = eqRes.steps) := by
  obtain ⟨eqRes, h1, h2, h3⟩ :=
    (C5_inequality_negation (.ident "u") (.ident "u") createProverState).2 _ _ rfl
  exact ⟨eqRes, h1, by rw [← h2]; rfl, fun hh => by rw [← h3 hh]; rfl⟩

/-! ## Equalities between fresh variables (C9) -/

/-- An identifier with no registered definition is not expanded. -/
theorem expandDefinitions_ident_none (c : String) (s : ProverState)
    (hd : substGet s.definitions c = none) :
    expandDefinitions (.ident c) s = .ident c := by
  rw [expandDefinitions]
  rcases hlen : s.definitions.length with _ | k
  · rw [expandDefinitionsFuel, expandStep, hd]
  · rw [expandDefinitionsFuel, expandStep, hd]

theorem checkEquality_fresh_vars (c1 c2 : String) (s : ProverState)
    (h1 : isVariable c1 = true) (h2 : isVariable c2 = true) (hne : c1 ≠ c2)
    (d1 : substGet s.definitions c1 = none) (d2 : substGet s.definitions c2 = none) :
    ∃ R st2, checkEquality (.ident c1) (.ident c2) s = .ok (R, st2) ∧
      R.success = true ∧ R.substitution = some [(c1, .ident c2)] := by
  have hnorm1 : normalize (Node.ident c1) = .ok (.ident c1) := rfl
  have hnorm2 : normalize (Node.ident c2) = .ok (.ident c2) := rfl
  have hbeq : astEqual (Node.ident c1) (.ident c2) = false := by
    rw [astEqual]
    show (c1 == c2) = false
    simp only [beq_eq_false_iff_ne, ne_eq]
    exact hne
  have hocc : occursIn c1 (Node.ident c2) = false := by
    rw [occursIn]
    simp only [beq_eq_false_iff_ne, ne_eq]
    exact Ne.symm hne
  have huni : unify (.ident c1) (.ident c2) = some [(c1, .ident c2)] :=
    unify_fresh_var c1 (.ident c2) h1 hocc
  rw [checkEquality, hnorm1, hnorm2]
  dsimp only
  rw [hbeq]
  simp only [Bool.false_eq_true, if_false]
  set st1 : ProverState :=
    { axioms := s.axioms, definitions := s.definitions, facts := s.facts,
      trace := s.trace ++
        ["Checking: " ++ toCanonicalString (Node.ident c1) ++ " = " ++
          toCanonicalString (Node.ident c2)] } with hst1
  rw [expandDefinitions_ident_none c1 st1 (show substGet st1.definitions c1 = none from d1),
    expandDefinitions_ident_none c2 st1 (show substGet st1.definitions c2 = none from d2)]
  rw [hbeq]
  simp only [Bool.false_eq_true, if_false]
  rw [huni]
  exact ⟨_, _, rfl, rfl, rfl⟩

/-- **C9 (amended)**: an equality between two *distinct*
single-lowercase-letter identifiers, *neither of which has a registered
definition* (in particular on a fresh state), is judged provable via the
unification step with a substitution binding the first letter to the
second; consequently `verify` reports the equality as success and the
inequality as failure.  (On states that define both letters this can fail —
see the counterexample.) -/
theorem C9_distinct_variables (c1 c2 : String) (s : ProverState)
    (h1 : isVariable c1 = true) (h2 : isVariable c2 = true) (hne : c1 ≠ c2)
    (d1 : substGet s.definitions c1 = none) (d2 : substGet s.definitions c2 = none) :
    (∃ R st2, checkEquality (.ident c1) (.ident c2) s = .ok (R, st2) ∧
       R.success = true ∧ R.substitution = some [(c1, .ident c2)]) ∧
    (verify (.eq (.ident c1) (.ident c2)) s).map (fun p => p.1.success) = .ok true ∧
    (verify (.neq (.ident c1) (.ident c2)) s).map (fun p => p.1.success) = .ok false := by
  obtain ⟨R, st2, hce, hsucc, hsub⟩ :=
    checkEquality_fresh_vars c1 c2 s h1 h2 hne d1 d2
  refine ⟨⟨R, st2, hce, hsucc, hsub⟩, ?_, ?_⟩
  · rw [verify]
    rw [show normalize (Node.eq (.ident c1) (.ident c2)) =
          .ok (.eq (.ident c1) (.ident c2)) from rfl]
    dsimp only
    rw [hce]
    simp [Except.map, hsucc]
  · rw [verify]
    rw [show normalize (Node.neq (.ident c1) (.ident c2)) =
          .ok (.neq (.ident c1) (.ident c2)) from rfl]
    dsimp only
    rw [checkInequality, hce]
    dsimp only
    rw [hsucc]
    simp [Except.map]

/-- Witness for C9 at `a = b` on the fresh state. -/
theorem C9_distinct_variables_witness :
    (∃ R st2, checkEquality (.ident "a") (.ident "b") createProverState = .ok (R, st2) ∧
       R.success = true ∧ R.substitution = some [("a", .ident "b")]) ∧
    (verify (.eq (.ident "a") (.ident "b")) createProverState).map
        (fun p => p.1.success) = .ok true ∧
    (verify (.neq (.ident "a") (.ident "b")) createProverState).map
        (fun p => p.1.success) = .ok false :=
  C9_distinct_variables "a" "b" createProverState rfl rfl (by decide) rfl rfl

end Aprover
